import Mathlib

/-!
Verification of `buildSrc/linuxsigner.js` (Linux AppImage code-signing utility).

The script's own logic is embedded shallowly:
* Node's posix `path.dirname`, `path.basename`, `path.join` (with its
  normalization pass) are modelled on `List Char`, following the character
  scans of Node's `lib/path.js` segment by segment.
* `Buffer.toString('base64')` and `forge.util.decode64` are modelled as
  `encode64` / `decode64` on byte lists (`List Nat`, each value < 256);
  `forge.util.hexToBytes` as `hexToBytes`.
* The opaque cryptographic primitives supplied by node-forge (SHA-512,
  RSASSA-PKCS1-v1_5 signing, ASN.1/PKCS#12 parsing) are abstracted into a
  `CryptoLib` parameter: the script only plumbs bytes through them, and every
  theorem below is proved for an arbitrary such library.
* The filesystem is an association list from paths to byte contents, and each
  run records the trace of file reads and writes, so ordering claims
  ("fails before any I/O on the target") are statable.
-/

namespace NodePath

/-- Split a character list on `'/'` (used to model the segment decomposition
performed by Node's `normalizeString`). `splitSegs "" = [""]`. -/
def splitSegs : List Char → List (List Char)
  | [] => [[]]
  | c :: cs =>
    let r := splitSegs cs
    if c = '/' then [] :: r
    else
      match r with
      | [] => [[c]]
      | s :: rest => (c :: s) :: rest

/-- Join segments with `'/'` separators (inverse of `splitSegs` on
slash-free segments). -/
def joinSegs : List (List Char) → List Char
  | [] => []
  | [s] => s
  | s :: t :: rest => s ++ '/' :: joinSegs (t :: rest)

/-- One step of Node's `normalizeString` segment loop, on a reversed stack of
already-emitted segments: empty segments and `"."` are skipped, `".."` pops a
normal segment, is kept when above root and `allowAboveRoot` is set, and is
dropped otherwise; every other segment is emitted. -/
def stepSeg (allowAboveRoot : Bool) (stack : List (List Char)) (s : List Char) :
    List (List Char) :=
  if s = [] ∨ s = ['.'] then stack
  else if s = ['.', '.'] then
    match stack with
    | [] => if allowAboveRoot then [s] else []
    | t :: rest =>
      if t = ['.', '.'] then (if allowAboveRoot then s :: stack else stack)
      else rest
  else s :: stack

/-- Node `normalizeString`: resolve `"."` and `".."` segments. -/
def normSegs (allowAboveRoot : Bool) (segs : List (List Char)) :
    List (List Char) :=
  (segs.foldl (stepSeg allowAboveRoot) []).reverse

/-- Node posix `path.normalize`. -/
def normalize (p : List Char) : List Char :=
  if p = [] then ['.']
  else
    let isAbs := p.head? == some '/'
    let trail := p.getLast? == some '/'
    let body := joinSegs (normSegs (!isAbs) (splitSegs p))
    if body = [] then
      if isAbs then ['/'] else if trail then ['.', '/'] else ['.']
    else
      (if isAbs then '/' :: body else body) ++ (if trail then ['/'] else [])

/-- Node posix `path.basename` (no extension argument): drop trailing
slashes, then take the final slash-free run. -/
def basename (p : List Char) : List Char :=
  ((p.reverse.dropWhile (· == '/')).takeWhile (· != '/')).reverse

/-- Node posix `path.dirname`: everything before the last separator of the
basename, with Node's special cases for root (`"/"`, `"//"`) and for paths
without a separator (`"."`). -/
def dirname (p : List Char) : List Char :=
  if p = [] then ['.']
  else
    let hasRoot := p.head? = some '/'
    let r2 := (p.reverse.dropWhile (· == '/')).dropWhile (· != '/')
    match r2 with
    | [] => if hasRoot then ['/'] else ['.']
    | [_] => if hasRoot then ['/'] else ['.']
    | _ :: rest => if hasRoot ∧ rest.length = 1 then ['/', '/'] else rest.reverse

/-- Node posix `path.join` restricted to the two-argument form used by the
signer: concatenate with a separator, then normalize. -/
def join (a b : List Char) : List Char :=
  if a = [] ∧ b = [] then ['.']
  else normalize (if a = [] then b else if b = [] then a else a ++ '/' :: b)

/-- A plain path component: nonempty, slash-free, and not one of the
special segments `"."`, `".."`. -/
def Plain (s : List Char) : Prop :=
  s ≠ [] ∧ '/' ∉ s ∧ s ≠ ['.'] ∧ s ≠ ['.', '.']

/-- A path in plain form: an optional leading `'/'` followed by
`'/'`-separated plain components. -/
def render (isAbs : Bool) (segs : List (List Char)) : List Char :=
  (if isAbs then ['/'] else []) ++ joinSegs segs

end NodePath

/-- The base64 alphabet used by `Buffer.toString('base64')` and node-forge:
`A..Z`, `a..z`, `0..9`, `+`, `/`. Only values `< 64` occur in well-formed
encodings. -/
def enc64Char (n : Nat) : Char :=
  if n < 26 then Char.ofNat (65 + n)
  else if n < 52 then Char.ofNat (97 + (n - 26))
  else if n < 62 then Char.ofNat (48 + (n - 52))
  else if n = 62 then '+'
  else '/'

/-- node-forge's `_base64Idx` inverse table; `'='` decodes to the sentinel
`64` exactly as in forge's `decode64`. -/
def dec64Val (c : Char) : Nat :=
  if c = '=' then 64
  else if 97 ≤ c.toNat then c.toNat - 71
  else if 65 ≤ c.toNat then c.toNat - 65
  else if 48 ≤ c.toNat then c.toNat + 4
  else if c = '+' then 62
  else 63

/-- Characters kept by forge's `decode64` pre-filter
(`input.replace(/[^A-Za-z0-9+\/=]/g, '')`). -/
def isB64 (c : Char) : Bool :=
  ('A' ≤ c && c ≤ 'Z') || ('a' ≤ c && c ≤ 'z') || ('0' ≤ c && c ≤ '9') ||
    c = '+' || c = '/' || c = '='

/-- `Buffer.toString('base64')`: standard base64 with `'='` padding, three
bytes per four output characters. On the 6-bit values produced here, the
`/`, `%`, `*`, `+` arithmetic coincides with the shifts and masked ors of
the JS implementation. -/
def encode64 : List Nat → List Char
  | [] => []
  | [b0] => [enc64Char (b0 / 4), enc64Char (b0 % 4 * 16), '=', '=']
  | [b0, b1] =>
    [enc64Char (b0 / 4), enc64Char (b0 % 4 * 16 + b1 / 16),
      enc64Char (b1 % 16 * 4), '=']
  | b0 :: b1 :: b2 :: rest =>
    enc64Char (b0 / 4) :: enc64Char (b0 % 4 * 16 + b1 / 16) ::
      enc64Char (b1 % 16 * 4 + b2 / 64) :: enc64Char (b2 % 64) ::
        encode64 rest

/-- The four-character group loop of forge's `decode64`: one to three bytes
per group, `'='` (sentinel `64`) suppressing the trailing bytes. -/
def decode64Groups : List Char → List Nat
  | c0 :: c1 :: c2 :: c3 :: rest =>
    (dec64Val c0 * 4 + dec64Val c1 / 16) ::
      ((if dec64Val c2 ≠ 64 then
          (dec64Val c1 % 16 * 16 + dec64Val c2 / 4) ::
            (if dec64Val c3 ≠ 64 then
              [dec64Val c2 % 4 * 64 + dec64Val c3]
            else [])
        else []) ++ decode64Groups rest)
  | _ => []

/-- `forge.util.decode64`: strip non-alphabet characters, then decode in
groups of four. -/
def decode64 (s : List Char) : List Nat :=
  decode64Groups (s.filter isB64)

/-- `forge.util.hexToBytes`: an odd-length input consumes its first digit as
a lone byte; then two hex digits per byte. -/
def hexVal (c : Char) : Nat :=
  if 97 ≤ c.toNat then c.toNat - 87
  else if 65 ≤ c.toNat then c.toNat - 55
  else c.toNat - 48

def hexPairs : List Char → List Nat
  | c1 :: c2 :: rest => (hexVal c1 * 16 + hexVal c2) :: hexPairs rest
  | _ => []

def hexToBytes (h : List Char) : List Nat :=
  if h.length % 2 = 1 then
    match h with
    | c :: rest => hexVal c :: hexPairs rest
    | [] => []
  else hexPairs h

/-- Well-formed buffer contents: every byte below 256. `fs.readFileSync`
always yields such buffers. -/
def BytesWF (b : List Nat) : Prop := ∀ x ∈ b, x < 256

/-- `Buffer.from(str, 'binary')`: each char code is masked to its low byte. -/
def bufferFromBinary (s : List Nat) : List Nat := s.map (· % 256)

/-- The filesystem: paths mapped to byte contents. -/
abbrev FS := List (List Char × List Nat)

/-- `fs.readFileSync` in binary mode: the file's bytes, or a thrown error
(modelled as `none`) when the path is absent. -/
def readFileSync (fs : FS) (p : List Char) : Option (List Nat) :=
  List.lookup p fs

/-- `fs.writeFileSync`: (over)writes `p` with `d`. -/
def writeFileSync (fs : FS) (p : List Char) (d : List Nat) : FS :=
  (p, d) :: fs

/-- A file I/O action on the filesystem, recorded in program order. -/
inductive Event
  | read : List Char → Event
  | write : List Char → List Nat → Event
  deriving DecidableEq

def Event.isWrite : Event → Bool
  | .read _ => false
  | .write _ _ => true

/-- The distinct ways the script can throw, following the spec's taxonomy
(§7) where the code matches it: `configError` is the explicit
`Error("can't sign linux client, …")`; `ioError` a `readFileSync` throw;
`credentialError` a forge ASN.1/PKCS#12 parse or decrypt throw; `typeError`
the unchecked `bag[0].key` dereference of `undefined`. -/
inductive JsError
  | configError
  | ioError
  | credentialError
  | typeError
  deriving DecidableEq

/-- The process environment as seen by the script: each variable is absent
or a string. -/
structure Env where
  LINUX_CSC_LINK : Option (List Char)
  LINUX_CSC_KEY_PASSWORD : Option (List Char)

/-- JS falsiness of `process.env.X` for the `!lnk || !pass` test: `undefined`
and the empty string are falsy, every other string truthy. -/
def jsFalsy : Option (List Char) → Bool
  | none => true
  | some s => s.isEmpty

/-- The JS-falsiness test of line 68 holds exactly when one of the two
configuration values is absent or the empty string. -/
def configMissing (env : Env) : Prop :=
  env.LINUX_CSC_LINK = none ∨ env.LINUX_CSC_LINK = some [] ∨
    env.LINUX_CSC_KEY_PASSWORD = none ∨ env.LINUX_CSC_KEY_PASSWORD = some []

/-- One PKCS#12 bag as consumed by the script: its `localKeyId` attribute
bytes and its key material. -/
structure Bag (K : Type) where
  localKeyId : List Nat
  key : K
  deriving DecidableEq

/-- A parsed PKCS#12 container: the bags reachable by `getBags`. -/
structure P12 (K : Type) where
  bags : List (Bag K)
  deriving DecidableEq

/-- The node-forge primitives the script calls but does not implement,
abstracted over the key type `K`: `md.sha512` digesting (of a binary
string's char codes), `privateKey.sign` (RSASSA-PKCS1-v1_5 over the digest,
a deterministic function of key and digest), and the composition
`asn1.fromDer` + `pkcs12.pkcs12FromAsn1` whose throws (bad DER, wrong
passphrase, corrupt container) are collapsed into `none`. -/
structure CryptoLib (K : Type) where
  sha512 : List Nat → List Nat
  rsaSign : K → List Nat → List Nat
  pkcs12FromAsn1 : List Nat → List Char → Option (P12 K)

/-- The fixed local-key-identifier of the signing key's bag
(`linuxsigner.js` line 84). -/
def localKeyIdHex : List Char :=
  ['6', 'F', 'E', 'F', 'E', 'E', '4', 'A', '9', '3', '6', '3', '4', 'B',
   '9', '5', 'D', 'D', '8', '2', '9', '7', '7', '1', '4', '3', 'D', '6',
   '9', '6', '6', '5', 'C', 'A', '9', '1', '8', '0', 'D', '2']

/-- `p12.getBags({localKeyIdHex: …})["localKeyId"]`: the bags whose
`localKeyId` attribute equals the hex-decoded identifier, in container
order (possibly empty). -/
def getBags {K : Type} (p12 : P12 K) (idHex : List Char) : List (Bag K) :=
  p12.bags.filter (fun b => b.localKeyId == hexToBytes idHex)

/-- `getPrivateKey()` of `linuxsigner.js`, lines 65–86: check the two
environment variables (JS-falsy test), read the bundle, base64-encode and
forge-decode it, parse PKCS#12 with the passphrase, look up the key bag by
`localKeyIdHex` and dereference `bag[0].key`. Returns the thrown error or
the key, paired with the trace of file reads performed. -/
def getPrivateKey {K : Type} (L : CryptoLib K) (env : Env) (fs : FS) :
    Except JsError K × List Event :=
  if jsFalsy env.LINUX_CSC_LINK || jsFalsy env.LINUX_CSC_KEY_PASSWORD then
    (.error .configError, [])
  else
    let lnk := env.LINUX_CSC_LINK.getD []
    let pass := env.LINUX_CSC_KEY_PASSWORD.getD []
    match readFileSync fs lnk with
    | none => (.error .ioError, [.read lnk])
    | some bundleBytes =>
      let p12b64 := encode64 bundleBytes
      let p12Der := decode64 p12b64
      match L.pkcs12FromAsn1 p12Der pass with
      | none => (.error .credentialError, [.read lnk])
      | some p12 =>
        match (getBags p12 localKeyIdHex).head? with
        | none => (.error .typeError, [.read lnk])
        | some bag => (.ok bag.key, [.read lnk])

/-- The literal suffix `'-sig.bin'` appended to the basename. -/
def sigSuffix : List Char := ['-', 's', 'i', 'g', '.', 'b', 'i', 'n']

/-- The signature output path of `signer`, line 57:
`path.join(path.dirname(filePath), path.basename(filePath) + '-sig.bin')`. -/
def sigOutPath (filePath : List Char) : List Char :=
  NodePath.join (NodePath.dirname filePath)
    (NodePath.basename filePath ++ sigSuffix)

/-- The outcome of one `signer` invocation: thrown error or normal return,
the resulting filesystem, and the trace of file I/O in program order. -/
structure RunResult where
  result : Except JsError Unit
  fs : FS
  trace : List Event

/-- `signer(filePath)` of `linuxsigner.js`, lines 52–63: read the target
file (binary), compute the output path, obtain the private key, digest the
file bytes with SHA-512 (`toString('binary')` is the identity on buffer
bytes), sign, and write the signature buffer
(`Buffer.from(sig, 'binary')`) to the output path. The `console.log`
progress message performs no file I/O and is not modelled. -/
def signer {K : Type} (L : CryptoLib K) (env : Env) (fs : FS)
    (filePath : List Char) : RunResult :=
  match readFileSync fs filePath with
  | none => ⟨.error .ioError, fs, [.read filePath]⟩
  | some fileData =>
    match getPrivateKey L env fs with
    | (.error e, evs) => ⟨.error e, fs, .read filePath :: evs⟩
    | (.ok privateKey, evs) =>
      let md := L.sha512 fileData
      let sig := bufferFromBinary (L.rsaSign privateKey md)
      ⟨.ok (), writeFileSync fs (sigOutPath filePath) sig,
        .read filePath :: evs ++ [.write (sigOutPath filePath) sig]⟩

/-- A concrete `CryptoLib` whose parser rejects every bundle (as forge does
on a wrong passphrase or corrupt data); digest and signing are concrete
byte functions. Used to exercise the embedding on closed inputs. -/
def libReject : CryptoLib Nat :=
  ⟨fun d => [d.length % 256], fun k d => k :: d, fun _ _ => none⟩

/-- A concrete `CryptoLib` whose parser yields one bag whose `localKeyId`
does not match `localKeyIdHex`. -/
def libNoMatch : CryptoLib Nat :=
  ⟨fun d => [d.length % 256], fun k d => k :: d,
    fun _ _ => some ⟨[⟨[0], 7⟩]⟩⟩

/-- A concrete `CryptoLib` whose parser yields one bag carrying key `7`
under the fixed identifier, so extraction succeeds. -/
def libMatch : CryptoLib Nat :=
  ⟨fun d => [d.length % 256], fun k d => k :: d,
    fun _ _ => some ⟨[⟨hexToBytes localKeyIdHex, 7⟩]⟩⟩

/-- A populated environment: bundle at `"l"`, passphrase `"p"`. -/
def envOk : Env := ⟨some ['l'], some ['p']⟩

/-- An environment with the bundle-path variable unset. -/
def envNoLink : Env := ⟨none, some ['p']⟩

/-- A small filesystem: the bundle `"l"` and the target `"f"`. -/
def fsSmall : FS := [(['l'], [1]), (['f'], [2])]

/-- A second filesystem holding the same target bytes under the name
`"g"`. -/
def fsSmall2 : FS := [(['l'], [1]), (['g'], [2])]

/-- Like `fsSmall`, but the signature output path `"f-sig.bin"` already
exists with stale contents. -/
def fsPre : FS :=
  [(['l'], [1]), (['f'], [2]),
    (['f', '-', 's', 'i', 'g', '.', 'b', 'i', 'n'], [9])]

/-! ## Lemmas about the base64 model -/

theorem dec64Val_enc64Char_fin : ∀ n : Fin 64, dec64Val (enc64Char n.1) = n.1 := by
  decide

theorem isB64_enc64Char_fin : ∀ n : Fin 64, isB64 (enc64Char n.1) = true := by
  decide

theorem dec64Val_enc64Char (n : Nat) (h : n < 64) :
    dec64Val (enc64Char n) = n :=
  dec64Val_enc64Char_fin ⟨n, h⟩

theorem isB64_enc64Char (n : Nat) (h : n < 64) : isB64 (enc64Char n) = true :=
  isB64_enc64Char_fin ⟨n, h⟩

theorem isB64_sentinel : isB64 ('=') = true := by decide

theorem dec64Val_sentinel : dec64Val ('=') = 64 := by decide

theorem filter_isB64_encode64 (b : List Nat) (h : BytesWF b) :
    (encode64 b).filter isB64 = encode64 b := by
  induction b using encode64.induct with
  | case1 => rfl
  | case2 b0 =>
    have h0 : b0 < 256 := h b0 (by simp)
    simp [encode64, List.filter,
      isB64_enc64Char (b0 / 4) (by omega),
      isB64_enc64Char (b0 % 4 * 16) (by omega), isB64_sentinel]
  | case3 b0 b1 =>
    have h0 : b0 < 256 := h b0 (by simp)
    have h1 : b1 < 256 := h b1 (by simp)
    simp [encode64, List.filter,
      isB64_enc64Char (b0 / 4) (by omega),
      isB64_enc64Char (b0 % 4 * 16 + b1 / 16) (by omega),
      isB64_enc64Char (b1 % 16 * 4) (by omega), isB64_sentinel]
  | case4 b0 b1 b2 rest ih =>
    have h0 : b0 < 256 := h b0 (by simp)
    have h1 : b1 < 256 := h b1 (by simp)
    have h2 : b2 < 256 := h b2 (by simp)
    have hrest : BytesWF rest := fun x hx => h x (by simp [hx])
    simp [encode64, List.filter,
      isB64_enc64Char (b0 / 4) (by omega),
      isB64_enc64Char (b0 % 4 * 16 + b1 / 16) (by omega),
      isB64_enc64Char (b1 % 16 * 4 + b2 / 64) (by omega),
      isB64_enc64Char (b2 % 64) (by omega), ih hrest]

theorem decode64Groups_encode64 (b : List Nat) (h : BytesWF b) :
    decode64Groups (encode64 b) = b := by
  induction b using encode64.induct with
  | case1 => rfl
  | case2 b0 =>
    have h0 : b0 < 256 := h b0 (by simp)
    simp only [encode64, decode64Groups,
      dec64Val_enc64Char (b0 / 4) (by omega),
      dec64Val_enc64Char (b0 % 4 * 16) (by omega), dec64Val_sentinel]
    rw [if_neg (by omega : ¬(64 : Nat) ≠ 64)]
    simp only [List.nil_append, List.cons.injEq, and_true]
    omega
  | case3 b0 b1 =>
    have h0 : b0 < 256 := h b0 (by simp)
    have h1 : b1 < 256 := h b1 (by simp)
    simp only [encode64, decode64Groups,
      dec64Val_enc64Char (b0 / 4) (by omega),
      dec64Val_enc64Char (b0 % 4 * 16 + b1 / 16) (by omega),
      dec64Val_enc64Char (b1 % 16 * 4) (by omega), dec64Val_sentinel]
    rw [if_pos (by omega : (b1 % 16 * 4 : Nat) ≠ 64),
      if_neg (by omega : ¬(64 : Nat) ≠ 64)]
    simp only [List.cons_append, List.nil_append, List.cons.injEq, and_true]
    constructor
    · omega
    · omega
  | case4 b0 b1 b2 rest ih =>
    have h0 : b0 < 256 := h b0 (by simp)
    have h1 : b1 < 256 := h b1 (by simp)
    have h2 : b2 < 256 := h b2 (by simp)
    have hrest : BytesWF rest := fun x hx => h x (by simp [hx])
    simp only [encode64, decode64Groups,
      dec64Val_enc64Char (b0 / 4) (by omega),
      dec64Val_enc64Char (b0 % 4 * 16 + b1 / 16) (by omega),
      dec64Val_enc64Char (b1 % 16 * 4 + b2 / 64) (by omega),
      dec64Val_enc64Char (b2 % 64) (by omega)]
    rw [if_pos (by omega : (b1 % 16 * 4 + b2 / 64 : Nat) ≠ 64),
      if_pos (by omega : (b2 % 64 : Nat) ≠ 64)]
    simp only [List.cons_append, List.nil_append, ih hrest,
      List.cons.injEq, and_true]
    refine ⟨by omega, by omega, by omega⟩

/-- Round trip of the bundle encoding performed at lines 71–73 of
`linuxsigner.js`: forge's `decode64` undoes `Buffer.toString('base64')` on
any buffer contents. -/
theorem decode64_encode64 (b : List Nat) (h : BytesWF b) :
    decode64 (encode64 b) = b := by
  unfold decode64
  rw [filter_isB64_encode64 b h, decode64Groups_encode64 b h]

/-! ## Lemmas about the path model -/

namespace NodePath

theorem splitSegs_slashfree (s : List Char) (h : '/' ∉ s) :
    splitSegs s = [s] := by
  induction s with
  | nil => rfl
  | cons c cs ih =>
    have hc : ¬c = '/' := fun hcc => h (hcc ▸ List.mem_cons_self c cs)
    have hcs : '/' ∉ cs := fun hm => h (List.mem_cons_of_mem c hm)
    simp only [splitSegs, ih hcs, if_neg hc]

theorem splitSegs_append_slash (s t : List Char) (h : '/' ∉ s) :
    splitSegs (s ++ '/' :: t) = s :: splitSegs t := by
  induction s with
  | nil => simp [splitSegs]
  | cons c cs ih =>
    have hc : ¬c = '/' := fun hcc => h (hcc ▸ List.mem_cons_self c cs)
    have hcs : '/' ∉ cs := fun hm => h (List.mem_cons_of_mem c hm)
    simp only [List.cons_append, splitSegs, List.append_eq, ih hcs, if_neg hc]

theorem joinSegs_append_last (segs : List (List Char)) (f : List Char)
    (h : segs ≠ []) :
    joinSegs (segs ++ [f]) = joinSegs segs ++ '/' :: f := by
  induction segs with
  | nil => exact absurd rfl h
  | cons s rest ih =>
    cases rest with
    | nil => simp [joinSegs]
    | cons t rest' =>
      have ih2 := ih (by simp)
      rw [List.cons_append] at ih2
      simp only [List.cons_append, joinSegs, List.append_eq]
      rw [ih2]
      simp [List.append_assoc]

theorem splitSegs_joinSegs (segs : List (List Char))
    (h : ∀ s ∈ segs, '/' ∉ s) (hne : segs ≠ []) :
    splitSegs (joinSegs segs) = segs := by
  induction segs with
  | nil => exact absurd rfl hne
  | cons s rest ih =>
    cases rest with
    | nil => exact splitSegs_slashfree s (h s (by simp))
    | cons t rest' =>
      have hs : '/' ∉ s := h s (by simp)
      have hrest : ∀ u ∈ t :: rest', '/' ∉ u := fun u hu =>
        h u (List.mem_cons_of_mem s hu)
      simp only [joinSegs, splitSegs_append_slash s _ hs,
        ih hrest (by simp)]

theorem stepSeg_plain (aar : Bool) (stack : List (List Char))
    (s : List Char) (h : Plain s) : stepSeg aar stack s = s :: stack := by
  obtain ⟨h1, _, h3, h4⟩ := h
  unfold stepSeg
  rw [if_neg (show ¬(s = [] ∨ s = ['.']) from by simp [h1, h3]), if_neg h4]

theorem stepSeg_nil (aar : Bool) (stack : List (List Char)) :
    stepSeg aar stack [] = stack := by
  simp [stepSeg]

theorem foldl_stepSeg_plain (aar : Bool) (segs : List (List Char))
    (h : ∀ s ∈ segs, Plain s) :
    ∀ acc, segs.foldl (stepSeg aar) acc = segs.reverse ++ acc := by
  induction segs with
  | nil => intro acc; rfl
  | cons s rest ih =>
    intro acc
    have hs : Plain s := h s (by simp)
    have hrest : ∀ u ∈ rest, Plain u := fun u hu =>
      h u (List.mem_cons_of_mem s hu)
    simp only [List.foldl_cons, stepSeg_plain aar acc s hs, ih hrest,
      List.reverse_cons, List.append_assoc, List.cons_append,
      List.nil_append]

theorem normSegs_plain (aar : Bool) (segs : List (List Char))
    (h : ∀ s ∈ segs, Plain s) : normSegs aar segs = segs := by
  unfold normSegs
  rw [foldl_stepSeg_plain aar segs h []]
  simp

theorem normSegs_nil_cons (aar : Bool) (segs : List (List Char)) :
    normSegs aar ([] :: segs) = normSegs aar segs := by
  unfold normSegs
  rw [List.foldl_cons, stepSeg_nil]

theorem joinSegs_ne_nil (s : List Char) (rest : List (List Char))
    (h : s ≠ []) : joinSegs (s :: rest) ≠ [] := by
  cases rest with
  | nil => exact h
  | cons t rest' => simp [joinSegs, h]

theorem joinSegs_head? (s : List Char) (rest : List (List Char))
    (h : s ≠ []) : (joinSegs (s :: rest)).head? = s.head? := by
  cases rest with
  | nil => rfl
  | cons t rest' =>
    obtain ⟨c, s', rfl⟩ := List.exists_cons_of_ne_nil h
    rfl

theorem getLast?_append_ne_nil (a b : List Char) (h : b ≠ []) :
    (a ++ b).getLast? = b.getLast? := by
  obtain ⟨b', x, rfl⟩ := List.eq_nil_or_concat b |>.resolve_left h
  rw [List.concat_eq_append, ← List.append_assoc, List.getLast?_concat,
    List.getLast?_concat]

theorem getLast?_joinSegs_concat (segs : List (List Char)) (f : List Char)
    (hf : f ≠ []) : (joinSegs (segs ++ [f])).getLast? = f.getLast? := by
  cases segs with
  | nil => rfl
  | cons s rest =>
    rw [joinSegs_append_last (s :: rest) f (by simp)]
    rw [getLast?_append_ne_nil _ ('/' :: f) (by simp)]
    obtain ⟨f', x, rfl⟩ := List.eq_nil_or_concat f |>.resolve_left hf
    rw [List.concat_eq_append, ← List.cons_append, List.getLast?_concat,
      List.getLast?_concat]

theorem dropWhile_slash_of_not_mem (l : List Char) (h : '/' ∉ l) :
    l.dropWhile (· == '/') = l := by
  cases l with
  | nil => rfl
  | cons c l' =>
    have hc : ¬c = '/' := fun hcc => h (hcc ▸ List.mem_cons_self c l')
    simp [List.dropWhile_cons, hc]

theorem takeWhile_bne_of_not_mem (l : List Char) (h : '/' ∉ l) :
    l.takeWhile (· != '/') = l := by
  induction l with
  | nil => rfl
  | cons c l' ih =>
    have hc : ¬c = '/' := fun hcc => h (hcc ▸ List.mem_cons_self c l')
    have hl' : '/' ∉ l' := fun hm => h (List.mem_cons_of_mem c hm)
    simp [List.takeWhile_cons, hc, ih hl']

theorem takeWhile_bne_append (l t : List Char) (h : '/' ∉ l) :
    (l ++ '/' :: t).takeWhile (· != '/') = l := by
  induction l with
  | nil => simp [List.takeWhile_cons]
  | cons c l' ih =>
    have hc : ¬c = '/' := fun hcc => h (hcc ▸ List.mem_cons_self c l')
    have hl' : '/' ∉ l' := fun hm => h (List.mem_cons_of_mem c hm)
    simp [List.takeWhile_cons, hc, ih hl']

theorem dropWhile_bne_append (l t : List Char) (h : '/' ∉ l) :
    (l ++ '/' :: t).dropWhile (· != '/') = '/' :: t := by
  induction l with
  | nil => simp [List.dropWhile_cons]
  | cons c l' ih =>
    have hc : ¬c = '/' := fun hcc => h (hcc ▸ List.mem_cons_self c l')
    have hl' : '/' ∉ l' := fun hm => h (List.mem_cons_of_mem c hm)
    simp [List.dropWhile_cons, hc, ih hl']

theorem dropWhile_bne_eq_nil (l : List Char) (h : '/' ∉ l) :
    l.dropWhile (· != '/') = [] := by
  induction l with
  | nil => rfl
  | cons c l' ih =>
    have hc : ¬c = '/' := fun hcc => h (hcc ▸ List.mem_cons_self c l')
    have hl' : '/' ∉ l' := fun hm => h (List.mem_cons_of_mem c hm)
    simp [List.dropWhile_cons, hc, ih hl']

theorem basename_slashfree (f : List Char) (h : '/' ∉ f) :
    basename f = f := by
  unfold basename
  have hrev : '/' ∉ f.reverse := by simpa using h
  rw [dropWhile_slash_of_not_mem _ hrev, takeWhile_bne_of_not_mem _ hrev,
    List.reverse_reverse]

theorem basename_append (A f : List Char) (hf : f ≠ []) (hfs : '/' ∉ f) :
    basename (A ++ '/' :: f) = f := by
  unfold basename
  obtain ⟨f', x, rfl⟩ := List.eq_nil_or_concat f |>.resolve_left hf
  rw [List.concat_eq_append] at hfs ⊢
  have hx : ¬x = '/' := fun hxx => hfs (by simp [hxx])
  have hf' : '/' ∉ f'.reverse := by
    simp only [List.mem_reverse]
    exact fun hm => hfs (by simp [hm])
  rw [List.reverse_append, List.reverse_cons, List.reverse_append]
  simp only [List.reverse_cons, List.reverse_nil, List.nil_append,
    List.append_assoc, List.cons_append, List.nil_append]
  rw [List.dropWhile_cons]
  simp only [hx, beq_iff_eq, if_false]
  rw [List.takeWhile_cons]
  simp only [hx, bne_iff_ne, ne_eq, not_false_iff, if_true]
  rw [takeWhile_bne_append _ _ hf']
  simp

theorem dirname_slashfree (f : List Char) (hne : f ≠ []) (h : '/' ∉ f) :
    dirname f = ['.'] := by
  unfold dirname
  rw [if_neg hne]
  have hrev : '/' ∉ f.reverse := by simpa using h
  rw [dropWhile_slash_of_not_mem _ hrev, dropWhile_bne_eq_nil _ hrev]
  have hhead : ¬f.head? = some '/' := by
    obtain ⟨c, f', rfl⟩ := List.exists_cons_of_ne_nil hne
    have : ¬c = '/' := fun hcc => h (hcc ▸ List.mem_cons_self c f')
    simpa using this
  simp [hhead]

theorem dirname_root_slashfree (f : List Char) (hne : f ≠ [])
    (h : '/' ∉ f) : dirname ('/' :: f) = ['/'] := by
  unfold dirname
  rw [if_neg (by simp : ¬('/' :: f : List Char) = [])]
  obtain ⟨f', x, rfl⟩ := List.eq_nil_or_concat f |>.resolve_left hne
  rw [List.concat_eq_append] at h ⊢
  have hx : ¬x = '/' := fun hxx => h (by simp [hxx])
  have hf' : '/' ∉ f'.reverse := by
    simp only [List.mem_reverse]
    exact fun hm => h (by simp [hm])
  rw [List.reverse_cons, List.reverse_append]
  simp only [List.reverse_cons, List.reverse_nil, List.nil_append,
    List.cons_append, List.append_assoc, List.singleton_append]
  rw [List.dropWhile_cons]
  simp only [hx, beq_iff_eq, if_false]
  rw [List.dropWhile_cons]
  simp only [hx, bne_iff_ne, ne_eq, not_false_iff, if_true]
  rw [dropWhile_bne_append _ _ hf']
  simp

theorem dirname_append (A f : List Char) (hA : A ≠ [])
    (hAlast : A.getLast? ≠ some '/') (hf : f ≠ []) (hfs : '/' ∉ f) :
    dirname (A ++ '/' :: f) = A := by
  unfold dirname
  rw [if_neg (by simp : ¬(A ++ '/' :: f : List Char) = [])]
  obtain ⟨f', x, rfl⟩ := List.eq_nil_or_concat f |>.resolve_left hf
  rw [List.concat_eq_append] at hfs ⊢
  have hx : ¬x = '/' := fun hxx => hfs (by simp [hxx])
  have hf' : '/' ∉ f'.reverse := by
    simp only [List.mem_reverse]
    exact fun hm => hfs (by simp [hm])
  rw [List.reverse_append, List.reverse_cons, List.reverse_append]
  simp only [List.reverse_cons, List.reverse_nil, List.nil_append,
    List.append_assoc, List.cons_append, List.nil_append]
  rw [List.dropWhile_cons]
  simp only [hx, beq_iff_eq, if_false]
  rw [List.dropWhile_cons]
  simp only [hx, bne_iff_ne, ne_eq, not_false_iff, if_true]
  rw [dropWhile_bne_append _ _ hf']
  obtain ⟨c, A', rfl⟩ := List.exists_cons_of_ne_nil hA
  have hcons : (A'.reverse ++ [c] : List Char) = A'.reverse ++ c :: [] := rfl
  rw [List.reverse_cons, hcons]
  cases hA' : A'.reverse with
  | nil =>
    have : A' = [] := by simpa using congrArg List.reverse hA'
    subst this
    have hc : ¬c = '/' := by simpa using hAlast
    simp [hc]
  | cons d rest =>
    simp only [List.cons_append, List.length_cons, List.length_append]
    rw [if_neg]
    · have hrw : (d :: (rest ++ [c]) : List Char) = (c :: A').reverse := by
        rw [List.reverse_cons, hA']
        rfl
      rw [hrw, List.reverse_reverse]
    · rintro ⟨-, hlen⟩
      simp [List.length_append] at hlen
end NodePath

namespace NodePath

theorem render_ne_nil (isAbs : Bool) (s : List Char)
    (rest : List (List Char)) (hs : s ≠ []) :
    render isAbs (s :: rest) ≠ [] := by
  cases isAbs with
  | true => simp [render]
  | false =>
    simpa [render] using joinSegs_ne_nil s rest hs

theorem render_append_last (isAbs : Bool) (segs : List (List Char))
    (f : List Char) (h : segs ≠ []) :
    render isAbs (segs ++ [f]) = render isAbs segs ++ '/' :: f := by
  unfold render
  rw [joinSegs_append_last _ _ h, List.append_assoc]

theorem getLast?_render (isAbs : Bool) (segs : List (List Char))
    (f : List Char) (hf : f ≠ []) :
    (render isAbs (segs ++ [f])).getLast? = f.getLast? := by
  cases isAbs with
  | true =>
    show (('/' :: []) ++ joinSegs (segs ++ [f])).getLast? = f.getLast?
    rw [getLast?_append_ne_nil _ _ (by
      cases segs with
      | nil => exact hf
      | cons t r =>
        rw [joinSegs_append_last _ _ (by simp)]
        simp)]
    exact getLast?_joinSegs_concat segs f hf
  | false =>
    show (([] : List Char) ++ joinSegs (segs ++ [f])).getLast? = f.getLast?
    rw [List.nil_append]
    exact getLast?_joinSegs_concat segs f hf

theorem normalize_render (isAbs : Bool) (segs : List (List Char))
    (h : ∀ s ∈ segs, Plain s) (hne : segs ≠ []) :
    normalize (render isAbs segs) = render isAbs segs := by
  obtain ⟨s, rest, rfl⟩ := List.exists_cons_of_ne_nil hne
  have hs : Plain s := h s (by simp)
  have hpne : render isAbs (s :: rest) ≠ [] := render_ne_nil _ _ _ hs.1
  -- the head test
  have hhead : ((render isAbs (s :: rest)).head? == some '/') = isAbs := by
    cases isAbs with
    | true => rfl
    | false =>
      obtain ⟨c, s', rfl⟩ := List.exists_cons_of_ne_nil hs.1
      have hc : ¬c = '/' := fun hcc => hs.2.1 (hcc ▸ List.mem_cons_self _ _)
      show ((joinSegs ((c :: s') :: rest)).head? == some '/') = false
      rw [joinSegs_head? _ _ (by simp)]
      simpa using hc
  -- the trailing-separator test
  have htrail : ((render isAbs (s :: rest)).getLast? == some '/') = false := by
    obtain ⟨init, f, hsegs⟩ := List.eq_nil_or_concat (s :: rest) |>.resolve_left (by simp)
    rw [hsegs, List.concat_eq_append]
    have hfp : Plain f := h f (by rw [hsegs]; simp [List.concat_eq_append])
    rw [getLast?_render _ _ _ hfp.1]
    obtain ⟨f', x, rfl⟩ := List.eq_nil_or_concat f |>.resolve_left hfp.1
    rw [List.concat_eq_append, List.getLast?_concat]
    have hx : ¬x = '/' := fun hxx => hfp.2.1 (by simp [List.concat_eq_append, hxx])
    simpa using hx
  -- the split of the rendered path
  have hsplit : splitSegs (render isAbs (s :: rest)) =
      (if isAbs then [[]] else []) ++ (s :: rest) := by
    have hsf : ∀ u ∈ s :: rest, '/' ∉ u := fun u hu => (h u hu).2.1
    cases isAbs with
    | true =>
      show splitSegs ('/' :: joinSegs (s :: rest)) = [] :: s :: rest
      have hjs := splitSegs_joinSegs (s :: rest) hsf (by simp)
      simp [splitSegs, hjs]
    | false =>
      show splitSegs (joinSegs (s :: rest)) = s :: rest
      exact splitSegs_joinSegs _ hsf (by simp)
  have hnorm : normSegs (!isAbs) ((if isAbs then [[]] else []) ++ (s :: rest)) =
      s :: rest := by
    cases isAbs with
    | true =>
      show normSegs false ([] :: s :: rest) = s :: rest
      rw [normSegs_nil_cons]
      exact normSegs_plain _ _ h
    | false =>
      show normSegs true (s :: rest) = s :: rest
      exact normSegs_plain _ _ h
  have hbody : joinSegs (s :: rest) ≠ [] := joinSegs_ne_nil _ _ hs.1
  unfold normalize
  rw [if_neg hpne, hhead, htrail, hsplit]
  dsimp only
  rw [hnorm, if_neg hbody]
  cases isAbs with
  | true => simp [render]
  | false => simp [render]

theorem getLast?_eq_ne_slash (b : List Char) (hbne : b ≠ [])
    (hbs : '/' ∉ b) : (b.getLast? == some '/') = false := by
  obtain ⟨b', x, rfl⟩ := List.eq_nil_or_concat b |>.resolve_left hbne
  rw [List.concat_eq_append] at hbs ⊢
  rw [List.getLast?_concat]
  have hx : ¬x = '/' := fun hxx => hbs (by simp [hxx])
  simpa using hx

theorem normalize_dotslash (b : List Char) (hb : Plain b) :
    normalize ('.' :: '/' :: b) = b := by
  have hbne := hb.1
  have hbs := hb.2.1
  have hhead : (('.' :: '/' :: b).head? == some '/') = false := by
    simp
  have htrail : (('.' :: '/' :: b).getLast? == some '/') = false := by
    have hx : ('.' :: '/' :: b : List Char) = ['.', '/'] ++ b := rfl
    rw [hx, getLast?_append_ne_nil _ _ hbne]
    exact getLast?_eq_ne_slash b hbne hbs
  have hsplit : splitSegs ('.' :: '/' :: b) = [['.'], b] := by
    simp [splitSegs, splitSegs_slashfree b hbs]
  have hnorm : normSegs true [['.'], b] = [b] := by
    unfold normSegs
    rw [List.foldl_cons, List.foldl_cons, List.foldl_nil]
    rw [show stepSeg true [] ['.'] = [] from by simp [stepSeg]]
    rw [stepSeg_plain _ _ _ hb]
    rfl
  unfold normalize
  rw [if_neg (by simp : ¬('.' :: '/' :: b : List Char) = [])]
  rw [hhead, htrail, hsplit]
  dsimp only
  simp only [Bool.not_false, Bool.not_true]
  rw [hnorm]
  rw [show joinSegs [b] = b from rfl]
  rw [if_neg hbne]
  simp

theorem normalize_rootroot (b : List Char) (hb : Plain b) :
    normalize ('/' :: '/' :: b) = '/' :: b := by
  have hbne := hb.1
  have hbs := hb.2.1
  have hhead : (('/' :: '/' :: b).head? == some '/') = true := by simp
  have htrail : (('/' :: '/' :: b).getLast? == some '/') = false := by
    have hx : ('/' :: '/' :: b : List Char) = ['/', '/'] ++ b := rfl
    rw [hx, getLast?_append_ne_nil _ _ hbne]
    exact getLast?_eq_ne_slash b hbne hbs
  have hsplit : splitSegs ('/' :: '/' :: b) = [[], [], b] := by
    simp [splitSegs, splitSegs_slashfree b hbs]
  have hnorm : normSegs false [[], [], b] = [b] := by
    unfold normSegs
    rw [List.foldl_cons, List.foldl_cons, List.foldl_cons, List.foldl_nil]
    rw [stepSeg_nil, stepSeg_nil, stepSeg_plain _ _ _ hb]
    rfl
  unfold normalize
  rw [if_neg (by simp : ¬('/' :: '/' :: b : List Char) = [])]
  rw [hhead, htrail, hsplit]
  dsimp only
  simp only [Bool.not_false, Bool.not_true]
  rw [hnorm]
  rw [show joinSegs [b] = b from rfl]
  rw [if_neg hbne]
  simp

theorem render_getLast_ne (isAbs : Bool) (segs : List (List Char))
    (h : ∀ s ∈ segs, Plain s) (hne : segs ≠ []) :
    ((render isAbs segs).getLast? == some '/') = false := by
  obtain ⟨init, f, hsegs⟩ := List.eq_nil_or_concat segs |>.resolve_left hne
  rw [List.concat_eq_append] at hsegs
  subst hsegs
  have hf : Plain f := h f (by simp)
  rw [getLast?_render isAbs init f hf.1]
  exact getLast?_eq_ne_slash f hf.1 hf.2.1

theorem plain_append_sigSuffix (f : List Char) (hf : Plain f) :
    Plain (f ++ sigSuffix) := by
  refine ⟨by simp [sigSuffix], ?_, ?_, ?_⟩
  · intro hm
    rcases List.mem_append.mp hm with hm | hm
    · exact hf.2.1 hm
    · exact absurd hm (by decide)
  · intro heq
    have := congrArg List.length heq
    simp [sigSuffix] at this
  · intro heq
    have := congrArg List.length heq
    simp [sigSuffix] at this

end NodePath

/-- Central path computation: on a path in plain form (optional leading
`'/'`, then `'/'`-separated components that are nonempty, slash-free and
not `"."` or `".."`), the `dirname`/`basename`/`join` pipeline of line 57
appends exactly the literal suffix. -/
theorem sigOutPath_plain (isAbs : Bool) (segs : List (List Char))
    (h : ∀ s ∈ segs, NodePath.Plain s) (hne : segs ≠ []) :
    sigOutPath (NodePath.render isAbs segs) =
      NodePath.render isAbs segs ++ sigSuffix := by
  obtain ⟨init, f, hsegs⟩ := List.eq_nil_or_concat segs |>.resolve_left hne
  rw [List.concat_eq_append] at hsegs
  subst hsegs
  have hf : NodePath.Plain f := h f (by simp)
  have hsfx : NodePath.Plain (f ++ sigSuffix) :=
    NodePath.plain_append_sigSuffix f hf
  have hbne : (f ++ sigSuffix : List Char) ≠ [] := hsfx.1
  unfold sigOutPath
  cases init with
  | nil =>
    cases isAbs with
    | false =>
      have hrender : NodePath.render false ([] ++ [f]) = f := by
        simp [NodePath.render, NodePath.joinSegs]
      rw [hrender, NodePath.basename_slashfree f hf.2.1,
        NodePath.dirname_slashfree f hf.1 hf.2.1]
      unfold NodePath.join
      rw [if_neg (show ¬((['.'] : List Char) = [] ∧
        (f ++ sigSuffix : List Char) = []) from by simp)]
      rw [if_neg (show ¬(['.'] : List Char) = [] from by simp),
        if_neg hbne]
      exact NodePath.normalize_dotslash _ hsfx
    | true =>
      have hrender : NodePath.render true ([] ++ [f]) = '/' :: f := by
        simp [NodePath.render, NodePath.joinSegs]
      rw [hrender,
        show ('/' :: f : List Char) = [] ++ '/' :: f from rfl,
        NodePath.basename_append [] f hf.1 hf.2.1,
        show ([] ++ '/' :: f : List Char) = '/' :: f from rfl,
        NodePath.dirname_root_slashfree f hf.1 hf.2.1]
      unfold NodePath.join
      rw [if_neg (show ¬((['/'] : List Char) = [] ∧
        (f ++ sigSuffix : List Char) = []) from by simp)]
      rw [if_neg (show ¬(['/'] : List Char) = [] from by simp),
        if_neg hbne]
      rw [show (['/'] ++ '/' :: (f ++ sigSuffix) : List Char) =
        '/' :: '/' :: (f ++ sigSuffix) from rfl]
      rw [NodePath.normalize_rootroot _ hsfx]
      rfl
  | cons g init' =>
    have hinit : ∀ s ∈ g :: init', NodePath.Plain s := fun s hs =>
      h s (List.mem_append_left _ hs)
    have hgne : g ≠ [] := (hinit g (by simp)).1
    have hAne : NodePath.render isAbs (g :: init') ≠ [] :=
      NodePath.render_ne_nil isAbs g init' hgne
    have hAlast : (NodePath.render isAbs (g :: init')).getLast? ≠ some '/' := by
      have := NodePath.render_getLast_ne isAbs (g :: init') hinit (by simp)
      simpa using this
    have hrender : NodePath.render isAbs ((g :: init') ++ [f]) =
        NodePath.render isAbs (g :: init') ++ '/' :: f :=
      NodePath.render_append_last isAbs (g :: init') f (by simp)
    rw [hrender,
      NodePath.basename_append _ f hf.1 hf.2.1,
      NodePath.dirname_append _ f hAne hAlast hf.1 hf.2.1]
    unfold NodePath.join
    rw [if_neg (show ¬(NodePath.render isAbs (g :: init') = [] ∧
      (f ++ sigSuffix : List Char) = []) from fun hx => hAne hx.1)]
    rw [if_neg hAne, if_neg hbne]
    have hstep : NodePath.render isAbs (g :: init') ++ '/' :: (f ++ sigSuffix) =
        NodePath.render isAbs ((g :: init') ++ [f ++ sigSuffix]) :=
      (NodePath.render_append_last isAbs (g :: init') (f ++ sigSuffix)
        (by simp)).symm
    rw [hstep, NodePath.normalize_render isAbs _ (fun s hs => by
      rcases List.mem_append.mp hs with hs | hs
      · exact hinit s hs
      · rw [List.mem_singleton.mp hs]; exact hsfx) (by simp)]
    rw [NodePath.render_append_last isAbs (g :: init') (f ++ sigSuffix)
      (by simp)]
    simp [List.append_assoc]

/-! ## Lemmas about the filesystem and the signer -/

theorem bufferFromBinary_wf (s : List Nat) (h : BytesWF s) :
    bufferFromBinary s = s := by
  unfold bufferFromBinary
  induction s with
  | nil => rfl
  | cons x t ih =>
    have hx : x < 256 := h x (by simp)
    have ht : BytesWF t := fun y hy => h y (by simp [hy])
    simp [Nat.mod_eq_of_lt hx, ih ht]

theorem readFileSync_writeFileSync_self (fs : FS) (p : List Char)
    (d : List Nat) : readFileSync (writeFileSync fs p d) p = some d := by
  simp [readFileSync, writeFileSync, List.lookup]

theorem readFileSync_writeFileSync_ne (fs : FS) (p q : List Char)
    (d : List Nat) (h : q ≠ p) :
    readFileSync (writeFileSync fs p d) q = readFileSync fs q := by
  have hqp : (q == p) = false := beq_eq_false_iff_ne.mpr h
  simp [readFileSync, writeFileSync, List.lookup, hqp]

theorem jsFalsy_or_iff (env : Env) :
    (jsFalsy env.LINUX_CSC_LINK || jsFalsy env.LINUX_CSC_KEY_PASSWORD) = true
      ↔ configMissing env := by
  obtain ⟨a, b⟩ := env
  unfold configMissing
  cases a with
  | none => simp [jsFalsy]
  | some s =>
    cases b with
    | none => simp [jsFalsy]
    | some t => simp [jsFalsy, List.isEmpty_iff]

theorem getPrivateKey_config_missing {K : Type} (L : CryptoLib K)
    (env : Env) (fs : FS) (h : configMissing env) :
    getPrivateKey L env fs = (.error .configError, []) := by
  unfold getPrivateKey
  rw [if_pos ((jsFalsy_or_iff env).mpr h)]

theorem getPrivateKey_eq_parsed {K : Type} (L : CryptoLib K) (fs : FS)
    (lnk pass : List Char) (bytes : List Nat) (p12 : P12 K)
    (hlnk : lnk ≠ []) (hpass : pass ≠ [])
    (hread : readFileSync fs lnk = some bytes)
    (hparse : L.pkcs12FromAsn1 (decode64 (encode64 bytes)) pass = some p12) :
    getPrivateKey L ⟨some lnk, some pass⟩ fs =
      (match (getBags p12 localKeyIdHex).head? with
        | none => (.error .typeError, [.read lnk])
        | some bag => (.ok bag.key, [.read lnk])) := by
  unfold getPrivateKey
  rw [if_neg (by simp [jsFalsy, List.isEmpty_iff, hlnk, hpass])]
  dsimp only [Option.getD_some]
  rw [hread]
  dsimp only
  rw [hparse]

theorem getPrivateKey_trace_no_writes {K : Type} (L : CryptoLib K)
    (env : Env) (fs : FS) :
    ∀ ev ∈ (getPrivateKey L env fs).2, ev.isWrite = false := by
  intro ev hev
  simp only [getPrivateKey] at hev
  split at hev
  · simp at hev
  · split at hev
    · simp_all [Event.isWrite]
    · split at hev
      · simp_all [Event.isWrite]
      · split at hev <;> simp_all [Event.isWrite]

theorem getPrivateKey_not_configError {K : Type} (L : CryptoLib K)
    (env : Env) (fs : FS) (h : ¬configMissing env) :
    (getPrivateKey L env fs).1 ≠ .error .configError := by
  simp only [getPrivateKey]
  rw [if_neg (fun hc => h ((jsFalsy_or_iff env).mp hc))]
  split
  · simp
  · split
    · simp
    · split <;> simp

theorem signer_target_missing {K : Type} (L : CryptoLib K) (env : Env)
    (fs : FS) (p : List Char) (hread : readFileSync fs p = none) :
    signer L env fs p = ⟨.error .ioError, fs, [.read p]⟩ := by
  simp only [signer, hread]

theorem signer_pk_error {K : Type} (L : CryptoLib K) (env : Env) (fs : FS)
    (p : List Char) (d : List Nat) (e : JsError) (evs : List Event)
    (hread : readFileSync fs p = some d)
    (hpk : getPrivateKey L env fs = (.error e, evs)) :
    signer L env fs p = ⟨.error e, fs, .read p :: evs⟩ := by
  simp only [signer, hread, hpk]

theorem signer_pk_ok {K : Type} (L : CryptoLib K) (env : Env) (fs : FS)
    (p : List Char) (d : List Nat) (k : K) (evs : List Event)
    (hread : readFileSync fs p = some d)
    (hpk : getPrivateKey L env fs = (.ok k, evs)) :
    signer L env fs p =
      ⟨.ok (),
        writeFileSync fs (sigOutPath p)
          (bufferFromBinary (L.rsaSign k (L.sha512 d))),
        .read p :: evs ++
          [.write (sigOutPath p)
            (bufferFromBinary (L.rsaSign k (L.sha512 d)))]⟩ := by
  simp only [signer, hread, hpk]

theorem getBags_head?_none_iff {K : Type} (p12 : P12 K) (idHex : List Char) :
    (getBags p12 idHex).head? = none ↔
      ¬∃ b ∈ p12.bags, b.localKeyId = hexToBytes idHex := by
  rw [List.head?_eq_none_iff]
  unfold getBags
  rw [List.filter_eq_nil_iff]
  simp [beq_iff_eq]

/-! ## Claims -/

/-- C1, counterexample: with `LINUX_CSC_LINK` unset and a readable target,
`sign` does fail with the configuration error, but its I/O trace contains a
read of the target artifact — `fs.readFileSync(filePath)` on line 55 runs
before `getPrivateKey()` on line 58 — so the failure does not occur before
file I/O on the target. -/
theorem signer_missing_config_still_reads_target :
    (signer libMatch envNoLink fsSmall ['f']).result =
        .error .configError ∧
      Event.read ['f'] ∈ (signer libMatch envNoLink fsSmall ['f']).trace := by
  refine ⟨rfl, ?_⟩
  rw [show (signer libMatch envNoLink fsSmall ['f']).trace =
    [Event.read ['f']] from rfl]
  exact List.mem_singleton.mpr rfl

/-- C1 (amended): when either configuration value is absent or empty and
the target is readable, `sign` fails with the configuration error, never
creates the signature output file (the filesystem is unchanged), and never
touches the credential bundle — but only after the single read of the
target artifact, which precedes the configuration check. -/
theorem signer_missing_config_fails {K : Type} (L : CryptoLib K)
    (env : Env) (fs : FS) (p : List Char) (d : List Nat)
    (hmiss : configMissing env) (hread : readFileSync fs p = some d) :
    signer L env fs p = ⟨.error .configError, fs, [.read p]⟩ :=
  signer_pk_error L env fs p d .configError [] hread
    (getPrivateKey_config_missing L env fs hmiss)

/-- Witness for C1 (amended) on a concrete run. -/
theorem signer_missing_config_fails_witness :
    signer libMatch envNoLink fsSmall ['f'] =
      ⟨.error .configError, fsSmall, [.read ['f']]⟩ :=
  signer_missing_config_fails libMatch envNoLink fsSmall ['f'] [2]
    (Or.inl rfl) rfl

/-- C2, counterexample: on a bundle that parses but contains no bag whose
`localKeyId` matches the fixed identifier, extraction fails with the
`TypeError` of the unchecked `bag[0].key` access on line 85 — not with an
explicit `CredentialError` as claimed. -/
theorem getPrivateKey_no_bag_match_typeError :
    (getPrivateKey libNoMatch envOk fsSmall).1 = .error .typeError ∧
      JsError.typeError ≠ JsError.credentialError :=
  ⟨rfl, by decide⟩

/-- C2 (amended): on a parsed bundle with no matching key bag, extraction
raises an error — the `TypeError` from dereferencing the absent `bag[0]`,
not an explicit `CredentialError` — so no empty or undefined key reaches
the signing step, and no signature file is produced (the filesystem is
returned unchanged, with no write in the trace). -/
theorem getPrivateKey_no_bag_match_raises {K : Type} (L : CryptoLib K)
    (fs : FS) (lnk pass : List Char) (bytes : List Nat) (p12 : P12 K)
    (p : List Char) (d : List Nat)
    (hlnk : lnk ≠ []) (hpass : pass ≠ [])
    (hbundle : readFileSync fs lnk = some bytes)
    (hparse : L.pkcs12FromAsn1 (decode64 (encode64 bytes)) pass = some p12)
    (hnomatch : ∀ b ∈ p12.bags, b.localKeyId ≠ hexToBytes localKeyIdHex)
    (htarget : readFileSync fs p = some d) :
    getPrivateKey L ⟨some lnk, some pass⟩ fs =
        (.error .typeError, [.read lnk]) ∧
      signer L ⟨some lnk, some pass⟩ fs p =
        ⟨.error .typeError, fs, [.read p, .read lnk]⟩ := by
  have hbags : getBags p12 localKeyIdHex = [] := by
    unfold getBags
    rw [List.filter_eq_nil_iff]
    intro b hb
    simpa using hnomatch b hb
  have h1 := getPrivateKey_eq_parsed L fs lnk pass bytes p12 hlnk hpass
    hbundle hparse
  rw [hbags] at h1
  simp only [List.head?_nil] at h1
  exact ⟨h1, signer_pk_error L _ fs p d .typeError [.read lnk] htarget h1⟩

/-- Witness for C2 (amended) on a concrete run. -/
theorem getPrivateKey_no_bag_match_raises_witness :
    getPrivateKey libNoMatch ⟨some ['l'], some ['p']⟩ fsSmall =
        (.error .typeError, [.read ['l']]) ∧
      signer libNoMatch ⟨some ['l'], some ['p']⟩ fsSmall ['f'] =
        ⟨.error .typeError, fsSmall, [.read ['f'], .read ['l']]⟩ :=
  getPrivateKey_no_bag_match_raises libNoMatch fsSmall ['l'] ['p'] [1]
    ⟨[⟨[0], 7⟩]⟩ ['f'] [2] (by decide) (by decide) rfl rfl (by decide) rfl

/-- C3: on a successful run, the bytes stored at the signature output path
(and carried by the single write event) are exactly
`privateKey.sign(sha512(fileData))` — the library's PKCS#1 v1.5 RSA
signature of the SHA-512 digest of the target file's raw byte content. The
`toString('binary')` / `Buffer.from(…, 'binary')` conversions are
byte-faithful (`BytesWF` states the signature is a byte string, which every
real signature is). -/
theorem signer_signs_sha512_of_file_bytes {K : Type} (L : CryptoLib K)
    (env : Env) (fs : FS) (p : List Char) (d : List Nat) (k : K)
    (evs : List Event)
    (hread : readFileSync fs p = some d)
    (hpk : getPrivateKey L env fs = (.ok k, evs))
    (hsig : BytesWF (L.rsaSign k (L.sha512 d))) :
    readFileSync (signer L env fs p).fs (sigOutPath p) =
        some (L.rsaSign k (L.sha512 d)) ∧
      (signer L env fs p).trace =
        .read p :: evs ++
          [.write (sigOutPath p) (L.rsaSign k (L.sha512 d))] := by
  rw [signer_pk_ok L env fs p d k evs hread hpk]
  rw [bufferFromBinary_wf _ hsig]
  exact ⟨readFileSync_writeFileSync_self fs _ _, rfl⟩

/-- Witness for C3 on a concrete run. -/
theorem signer_signs_sha512_of_file_bytes_witness :
    readFileSync (signer libMatch envOk fsSmall ['f']).fs
        (sigOutPath ['f']) =
        some (libMatch.rsaSign 7 (libMatch.sha512 [2])) ∧
      (signer libMatch envOk fsSmall ['f']).trace =
        .read ['f'] :: [.read ['l']] ++
          [.write (sigOutPath ['f'])
            (libMatch.rsaSign 7 (libMatch.sha512 [2]))] :=
  signer_signs_sha512_of_file_bytes libMatch envOk fsSmall ['f'] [2] 7
    [.read ['l']] rfl rfl (by unfold BytesWF; decide)

/-- C4, counterexample: for the input path `"a/"` (trailing separator) the
computed output path is `"a-sig.bin"`, not `"a/" ++ "-sig.bin"`: the
claimed identity `output = input ++ "-sig.bin"` fails because line 57
rebuilds the path from `dirname`/`basename`, which normalize away the
trailing slash. -/
theorem sigOutPath_trailing_slash :
    sigOutPath ['a', '/'] ≠ ['a', '/'] ++ sigSuffix := by decide

/-- C4 (amended): for every input path in plain form — an optional leading
`'/'` followed by `'/'`-separated components that are nonempty, slash-free
and not `"."` or `".."` (in particular no trailing slash, no `"//"`) — the
signature file path is exactly the input path with the literal suffix
`'-sig.bin'` appended; e.g. `/a/b/artifact.bin` yields
`/a/b/artifact.bin-sig.bin`. -/
theorem signer_output_naming (isAbs : Bool) (segs : List (List Char))
    (h : ∀ s ∈ segs, NodePath.Plain s) (hne : segs ≠ []) :
    sigOutPath (NodePath.render isAbs segs) =
      NodePath.render isAbs segs ++ sigSuffix :=
  sigOutPath_plain isAbs segs h hne

/-- Witness for C4 (amended): the spec's own example path
`/a/b/artifact.bin`. -/
theorem signer_output_naming_witness :
    sigOutPath (NodePath.render true
        [['a'], ['b'],
          ['a', 'r', 't', 'i', 'f', 'a', 'c', 't', '.', 'b', 'i', 'n']]) =
      NodePath.render true
          [['a'], ['b'],
            ['a', 'r', 't', 'i', 'f', 'a', 'c', 't', '.', 'b', 'i', 'n']] ++
        sigSuffix :=
  signer_output_naming true _ (by simp only [NodePath.Plain]; decide)
    (by decide)

/-- C5: `getPrivateKey` throws the configuration error exactly when one of
`LINUX_CSC_LINK`, `LINUX_CSC_KEY_PASSWORD` is absent or the empty string
(the JS-falsy test of line 68), and in that case it performs no file I/O
at all — in particular the credential bundle is never read. -/
theorem getPrivateKey_configError_iff {K : Type} (L : CryptoLib K)
    (env : Env) (fs : FS) :
    ((getPrivateKey L env fs).1 = .error .configError ↔
        configMissing env) ∧
      (configMissing env →
        getPrivateKey L env fs = (.error .configError, [])) := by
  refine ⟨⟨fun h1 => ?_, fun h => ?_⟩,
    getPrivateKey_config_missing L env fs⟩
  · by_contra hm
    exact getPrivateKey_not_configError L env fs hm h1
  · rw [getPrivateKey_config_missing L env fs h]

/-- Witness for C5 on a concrete environment with the bundle path unset. -/
theorem getPrivateKey_configError_iff_witness :
    getPrivateKey libMatch envNoLink fsSmall = (.error .configError, []) :=
  (getPrivateKey_configError_iff libMatch envNoLink fsSmall).2 (Or.inl rfl)

/-- C6: signing is deterministic — two invocations over the same file
bytes that extract the same private key (possibly from different
filesystems, paths and environments) store byte-identical signature
contents, because the signature is the pure function
`rsaSign k (sha512 d)` of key and content. -/
theorem signer_deterministic {K : Type} (L : CryptoLib K)
    (env1 env2 : Env) (fs1 fs2 : FS) (p1 p2 : List Char) (d : List Nat)
    (k : K) (evs1 evs2 : List Event)
    (h1 : readFileSync fs1 p1 = some d)
    (h2 : readFileSync fs2 p2 = some d)
    (hk1 : getPrivateKey L env1 fs1 = (.ok k, evs1))
    (hk2 : getPrivateKey L env2 fs2 = (.ok k, evs2)) :
    readFileSync (signer L env1 fs1 p1).fs (sigOutPath p1) =
      readFileSync (signer L env2 fs2 p2).fs (sigOutPath p2) := by
  rw [signer_pk_ok L env1 fs1 p1 d k evs1 h1 hk1,
    signer_pk_ok L env2 fs2 p2 d k evs2 h2 hk2]
  rw [readFileSync_writeFileSync_self, readFileSync_writeFileSync_self]

/-- Witness for C6: the same target bytes under two different names in two
different filesystems produce the same stored signature bytes. -/
theorem signer_deterministic_witness :
    readFileSync (signer libMatch envOk fsSmall ['f']).fs
        (sigOutPath ['f']) =
      readFileSync (signer libMatch envOk fsSmall2 ['g']).fs
        (sigOutPath ['g']) :=
  signer_deterministic libMatch envOk envOk fsSmall fsSmall2 ['f'] ['g']
    [2] 7 [.read ['l']] [.read ['l']] rfl rfl rfl rfl

/-- C7: whenever `sign` fails — missing configuration, unreadable bundle or
target, failed parse/decrypt, or missing key bag — the filesystem is
returned unchanged and the I/O trace contains no write: the failure always
occurs before any write to the output path begins. -/
theorem signer_failure_no_partial_output {K : Type} (L : CryptoLib K)
    (env : Env) (fs : FS) (p : List Char) (e : JsError)
    (h : (signer L env fs p).result = .error e) :
    (signer L env fs p).fs = fs ∧
      ∀ ev ∈ (signer L env fs p).trace, ev.isWrite = false := by
  rcases hr : readFileSync fs p with _ | d
  · rw [signer_target_missing L env fs p hr]
    exact ⟨rfl, fun ev hev => by simp_all [Event.isWrite]⟩
  · rcases hpk : getPrivateKey L env fs with ⟨res, evs⟩
    cases res with
    | error e' =>
      rw [signer_pk_error L env fs p d e' evs hr hpk]
      refine ⟨rfl, fun ev hev => ?_⟩
      rcases List.mem_cons.mp hev with hev | hev
      · simp [hev, Event.isWrite]
      · have hw := getPrivateKey_trace_no_writes L env fs
        rw [hpk] at hw
        exact hw ev hev
    | ok k =>
      rw [signer_pk_ok L env fs p d k evs hr hpk] at h
      simp at h

/-- Witness for C7 on a concrete failing run (bundle fails to parse). -/
theorem signer_failure_no_partial_output_witness :
    (signer libReject envOk fsSmall ['f']).fs = fsSmall ∧
      ∀ ev ∈ (signer libReject envOk fsSmall ['f']).trace,
        ev.isWrite = false :=
  signer_failure_no_partial_output libReject envOk fsSmall ['f']
    .credentialError rfl

/-- C8, counterexample: when the signature output path already exists, a
successful invocation creates no new file: it overwrites the existing
`"f-sig.bin"` (stale contents `[9]` become the fresh signature `[7, 1]`),
so filesystem state other than a newly created file does change. -/
theorem signer_success_overwrites_existing :
    (signer libMatch envOk fsPre ['f']).result = .ok () ∧
      readFileSync fsPre (sigOutPath ['f']) = some [9] ∧
      readFileSync (signer libMatch envOk fsPre ['f']).fs
        (sigOutPath ['f']) = some [7, 1] :=
  ⟨rfl, rfl, rfl⟩

/-- C8 (amended): every successful invocation writes exactly one file, the
signature file at `sigOutPath` — created if absent, overwritten if already
present — and leaves every other path unchanged; the target artifact and
credential bundle are only read (the trace contains exactly one write, to
the output path), and the only bytes written are the signature, not the
key. -/
theorem signer_success_frame {K : Type} (L : CryptoLib K) (env : Env)
    (fs : FS) (p : List Char) (d : List Nat) (k : K) (evs : List Event)
    (hread : readFileSync fs p = some d)
    (hpk : getPrivateKey L env fs = (.ok k, evs)) :
    (signer L env fs p).result = .ok () ∧
      readFileSync (signer L env fs p).fs (sigOutPath p) =
        some (bufferFromBinary (L.rsaSign k (L.sha512 d))) ∧
      (∀ q, q ≠ sigOutPath p →
        readFileSync (signer L env fs p).fs q = readFileSync fs q) ∧
      (signer L env fs p).trace.filter Event.isWrite =
        [.write (sigOutPath p) (bufferFromBinary (L.rsaSign k (L.sha512 d)))] := by
  rw [signer_pk_ok L env fs p d k evs hread hpk]
  refine ⟨rfl, readFileSync_writeFileSync_self fs _ _,
    fun q hq => readFileSync_writeFileSync_ne fs _ q _ hq, ?_⟩
  have hevs : evs.filter Event.isWrite = [] := by
    rw [List.filter_eq_nil_iff]
    intro ev hev
    have hw := getPrivateKey_trace_no_writes L env fs
    rw [hpk] at hw
    simp [hw ev hev]
  simp [List.filter_append, hevs, Event.isWrite]

/-- Witness for C8 (amended) on a concrete successful run. -/
theorem signer_success_frame_witness :
    (signer libMatch envOk fsSmall ['f']).result = .ok () ∧
      readFileSync (signer libMatch envOk fsSmall ['f']).fs
          (sigOutPath ['f']) =
        some (bufferFromBinary (libMatch.rsaSign 7 (libMatch.sha512 [2]))) ∧
      (∀ q, q ≠ sigOutPath ['f'] →
        readFileSync (signer libMatch envOk fsSmall ['f']).fs q =
          readFileSync fsSmall q) ∧
      (signer libMatch envOk fsSmall ['f']).trace.filter Event.isWrite =
        [.write (sigOutPath ['f'])
          (bufferFromBinary (libMatch.rsaSign 7 (libMatch.sha512 [2])))] :=
  signer_success_frame libMatch envOk fsSmall ['f'] [2] 7 [.read ['l']]
    rfl rfl

/-- C9: given a parsed bundle, the unchecked `bag[0].key` access errors
(the `typeError` branch of the embedding) exactly when no bag's
`localKeyId` matches the fixed identifier; whenever at least one bag
matches, the access is safe and extraction returns a key. -/
theorem getPrivateKey_index_safe_iff {K : Type} (L : CryptoLib K)
    (fs : FS) (lnk pass : List Char) (bytes : List Nat) (p12 : P12 K)
    (hlnk : lnk ≠ []) (hpass : pass ≠ [])
    (hbundle : readFileSync fs lnk = some bytes)
    (hparse : L.pkcs12FromAsn1 (decode64 (encode64 bytes)) pass = some p12) :
    ((getPrivateKey L ⟨some lnk, some pass⟩ fs).1 = .error .typeError ↔
        ¬∃ b ∈ p12.bags, b.localKeyId = hexToBytes localKeyIdHex) ∧
      ((∃ b ∈ p12.bags, b.localKeyId = hexToBytes localKeyIdHex) →
        ∃ k, (getPrivateKey L ⟨some lnk, some pass⟩ fs).1 = .ok k) := by
  have h1 := getPrivateKey_eq_parsed L fs lnk pass bytes p12 hlnk hpass
    hbundle hparse
  rw [h1]
  rcases hh : (getBags p12 localKeyIdHex).head? with _ | bag
  · have hiff := (getBags_head?_none_iff p12 localKeyIdHex).mp hh
    exact ⟨by simpa using hiff, fun hex => absurd hex hiff⟩
  · have hne : ¬(getBags p12 localKeyIdHex).head? = none := by
      rw [hh]; simp
    have hex : ∃ b ∈ p12.bags, b.localKeyId = hexToBytes localKeyIdHex := by
      by_contra hcon
      exact hne ((getBags_head?_none_iff p12 localKeyIdHex).mpr hcon)
    exact ⟨by simpa using hex, fun _ => ⟨bag.key, rfl⟩⟩

/-- Witness for C9: a bundle with a matching bag, on which extraction
returns the key. -/
theorem getPrivateKey_index_safe_iff_witness :
    ∃ k, (getPrivateKey libMatch ⟨some ['l'], some ['p']⟩ fsSmall).1 =
      .ok k :=
  (getPrivateKey_index_safe_iff libMatch fsSmall ['l'] ['p'] [1]
      ⟨[⟨hexToBytes localKeyIdHex, 7⟩]⟩ (by decide) (by decide) rfl rfl).2
    ⟨⟨hexToBytes localKeyIdHex, 7⟩, by simp, rfl⟩

/-- C10: the base64 encode-then-decode round trip applied to the credential
bundle at lines 71–73 (`readFileSync(lnk).toString('base64')` followed by
`forge.util.decode64`) is the identity on the bundle file's bytes, so the
ASN.1 parser receives exactly the raw byte content of the bundle file. -/
theorem bundle_roundtrip_raw_bytes (b : List Nat) (h : BytesWF b) :
    decode64 (encode64 b) = b :=
  decode64_encode64 b h

/-- Witness for C10 on concrete bytes (including byte 0 and byte 255). -/
theorem bundle_roundtrip_raw_bytes_witness :
    decode64 (encode64 [0, 255, 16, 3, 77]) = [0, 255, 16, 3, 77] :=
  bundle_roundtrip_raw_bytes [0, 255, 16, 3, 77] (by unfold BytesWF; decide)
